import Mathlib

/-!
# Verification of the `s3-simple` S3 client core

A shallow embedding, in Lean 4, of the parts of the `s3-simple` Rust crate
that the specification's claims concern:

* `src/command.rs` — the `Command` model with its per-variant payload hash
  (`Command::sha256`), content length and XML manifest rendering;
* `src/signature.rs` — AWS Signature V4 canonicalization (percent
  encoding/decoding, canonical URI and query strings, signed headers) and the
  chained-HMAC signing key;
* `src/bucket.rs` — `build_headers`, `build_url`, `send_request` bodies,
  `get_range` validation, the v1 `list_page` marker derivation, and the
  multipart streaming writer loop of `put_stream_with`.

Machine integers (`u8`, `u32`, `u64`) are modelled as `Nat` with explicit
`% 2^32` reductions where the Rust code relies on wrapping arithmetic.
Byte strings (`&[u8]`, `Vec<u8>`) are `List Nat` with every element `< 256`.
Rust `String` values are Lean `String`s, hashed through their UTF-8 bytes
exactly as `str::as_bytes` does.  Time formatting is external to the crate
(the `time` crate); dates therefore enter the model as the already-formatted
short-date / long-date / RFC 2822 strings.
-/

/-! ## Bytes, hex, SHA-256 and HMAC-SHA256

`sha2::Sha256`, `hmac::Hmac<Sha256>` and `hex::encode` are external crates
used by `command.rs` and `signature.rs`; they are modelled by a full
executable implementation of FIPS 180-4 SHA-256 and RFC 2104 HMAC below, so
that the AWS-published test vectors can be evaluated inside Lean.
-/

/-- UTF-8 bytes of a string, as natural numbers — the model of
Rust's `str::as_bytes`. -/
def asBytes (s : String) : List Nat :=
  s.data.flatMap (fun c => (String.utf8EncodeChar c).map UInt8.toNat)

/-- Truncation to 32 bits (`u32` wrapping arithmetic). -/
def u32 (n : Nat) : Nat := n % 4294967296

/-- 32-bit right rotation. -/
def rotr (n x : Nat) : Nat := u32 ((x >>> n) ||| (x <<< (32 - n)))

def shaCh (x y z : Nat) : Nat := (x &&& y) ^^^ ((x ^^^ 4294967295) &&& z)

def shaMaj (x y z : Nat) : Nat := (x &&& y) ^^^ (x &&& z) ^^^ (y &&& z)

def bigSigma0 (x : Nat) : Nat := rotr 2 x ^^^ rotr 13 x ^^^ rotr 22 x

def bigSigma1 (x : Nat) : Nat := rotr 6 x ^^^ rotr 11 x ^^^ rotr 25 x

def smallSigma0 (x : Nat) : Nat := rotr 7 x ^^^ rotr 18 x ^^^ (x >>> 3)

def smallSigma1 (x : Nat) : Nat := rotr 17 x ^^^ rotr 19 x ^^^ (x >>> 10)

/-- The 64 SHA-256 round constants (FIPS 180-4 §4.2.2). -/
def shaK : List Nat :=
  [1116352408, 1899447441, 3049323471, 3921009573, 961987163,
   1508970993, 2453635748, 2870763221, 3624381080, 310598401,
   607225278, 1426881987, 1925078388, 2162078206, 2614888103,
   3248222580, 3835390401, 4022224774, 264347078, 604807628,
   770255983, 1249150122, 1555081692, 1996064986, 2554220882,
   2821834349, 2952996808, 3210313671, 3336571891, 3584528711,
   113926993, 338241895, 666307205, 773529912, 1294757372,
   1396182291, 1695183700, 1986661051, 2177026350, 2456956037,
   2730485921, 2820302411, 3259730800, 3345764771, 3516065817,
   3600352804, 4094571909, 275423344, 430227734, 506948616,
   659060556, 883997877, 958139571, 1322822218, 1537002063,
   1747873779, 1955562222, 2024104815, 2227730452, 2361852424,
   2428436474, 2756734187, 3204031479, 3329325298]

/-- SHA-256 working state (eight 32-bit words). -/
structure Hash8 where
  a : Nat
  b : Nat
  c : Nat
  d : Nat
  e : Nat
  f : Nat
  g : Nat
  h : Nat
deriving Repr, DecidableEq

/-- Initial SHA-256 hash value (FIPS 180-4 §5.3.3). -/
def shaH0 : Hash8 :=
  ⟨1779033703, 3144134277, 1013904242, 2773480762,
   1359893119, 2600822924, 528734635, 1541459225⟩

/-- Big-endian byte rendering of a value into a fixed width. -/
def beBytes : Nat → Nat → List Nat
  | 0, _ => []
  | n + 1, v => beBytes n (v / 256) ++ [v % 256]

/-- SHA-256 message padding: `0x80`, zeros, and the 64-bit big-endian
bit length. -/
def padMessage (msg : List Nat) : List Nat :=
  msg ++ 128 :: List.replicate ((64 - (msg.length + 9) % 64) % 64) 0
      ++ beBytes 8 (msg.length * 8)

/-- Split a byte list into 64-byte blocks (structural recursion on a fuel
bound, so that the kernel can evaluate it). -/
def toBlocksAux : Nat → List Nat → List (List Nat)
  | 0, _ => []
  | _, [] => []
  | fuel + 1, l => l.take 64 :: toBlocksAux fuel (l.drop 64)

/-- Split a byte list into 64-byte blocks. -/
def toBlocks (l : List Nat) : List (List Nat) := toBlocksAux l.length l

/-- Big-endian 32-bit words of a block. -/
def toWords : List Nat → List Nat
  | a :: b :: c :: d :: rest => (((a * 256 + b) * 256 + c) * 256 + d) :: toWords rest
  | _ => []

/-- Message-schedule extension: append `n` further words to `w`. -/
def extendW : List Nat → Nat → List Nat
  | w, 0 => w
  | w, n + 1 =>
    let len := w.length
    let wNew := u32 (smallSigma1 (w.getD (len - 2) 0) + w.getD (len - 7) 0 +
                     smallSigma0 (w.getD (len - 15) 0) + w.getD (len - 16) 0)
    extendW (w ++ [wNew]) n

/-- One SHA-256 round; `kw` is the precomputed `K[i] + W[i]`. -/
def shaStep (st : Hash8) (kw : Nat) : Hash8 :=
  let t1 := u32 (st.h + bigSigma1 st.e + shaCh st.e st.f st.g + kw)
  let t2 := u32 (bigSigma0 st.a + shaMaj st.a st.b st.c)
  ⟨u32 (t1 + t2), st.a, st.b, st.c, u32 (st.d + t1), st.e, st.f, st.g⟩

/-- SHA-256 compression of one 64-byte block. -/
def shaCompress (st : Hash8) (block : List Nat) : Hash8 :=
  let w := extendW (toWords block) 48
  let fin := (shaK.zipWith (fun k wi => k + wi) w).foldl shaStep st
  ⟨u32 (st.a + fin.a), u32 (st.b + fin.b), u32 (st.c + fin.c), u32 (st.d + fin.d),
   u32 (st.e + fin.e), u32 (st.f + fin.f), u32 (st.g + fin.g), u32 (st.h + fin.h)⟩

/-- SHA-256 digest (32 bytes) of a byte string — the model of
`sha2::Sha256`. -/
def sha256Bytes (msg : List Nat) : List Nat :=
  let st := (toBlocks (padMessage msg)).foldl shaCompress shaH0
  beBytes 4 st.a ++ beBytes 4 st.b ++ beBytes 4 st.c ++ beBytes 4 st.d ++
  beBytes 4 st.e ++ beBytes 4 st.f ++ beBytes 4 st.g ++ beBytes 4 st.h

/-- Lowercase hex digit. -/
def hexChar (n : Nat) : Char := if n < 10 then Char.ofNat (48 + n) else Char.ofNat (87 + n)

/-- Lowercase hex rendering of a byte string — the model of `hex::encode`. -/
def hexStr (l : List Nat) : String :=
  String.mk (l.flatMap fun b => [hexChar (b / 16 % 16), hexChar (b % 16)])

/-- HMAC-SHA256 (RFC 2104) — the model of `Hmac::<Sha256>`. -/
def hmacSha256 (key msg : List Nat) : List Nat :=
  let k0 := if 64 < key.length then sha256Bytes key else key
  let kp := k0 ++ List.replicate (64 - k0.length) 0
  sha256Bytes ((kp.map (· ^^^ 92)) ++ sha256Bytes ((kp.map (· ^^^ 54)) ++ msg))

/-- The SigV4 signing key of `signature::signing_key` (src/signature.rs:149-171):
four chained HMAC-SHA256 steps over `"AWS4" + secret`, the short date, the
region, `"s3"` and `"aws4_request"`.  The `OffsetDateTime` argument enters the
model as its already-formatted `SHORT_DATE` string. -/
def signingKey (shortDate secret region : String) : List Nat :=
  let dateHmac := hmacSha256 (asBytes ("AWS4" ++ secret)) (asBytes shortDate)
  let regionHmac := hmacSha256 dateHmac (asBytes region)
  let serviceHmac := hmacSha256 regionHmac (asBytes "s3")
  hmacSha256 serviceHmac (asBytes "aws4_request")

/-! ## The `Command` model (src/command.rs, src/types.rs)

`bucket.rs` in this tree carries `HeaderMap` fields inside the
`PutObject`, `InitiateMultipartUpload` and `CopyObject` variants (it
constructs and matches them with a `headers` field), so those fields are
included here.  Header maps model `http::HeaderMap`: names are kept
lowercase (the `HeaderName` normalization) and `insert` replaces an
existing entry of the same name.
-/

namespace S3

/-- A header map: lowercase names with values, in insertion order. -/
abbrev Headers := List (String × String)

/-- `http::HeaderMap::insert`: replace the value of an existing name, or
append the new entry. -/
def hInsert (m : Headers) (k v : String) : Headers :=
  if k ∈ (List.map Prod.fst m) then
    List.map (fun p => if p.1 = k then (k, v) else p) m
  else
    m ++ [(k, v)]

/-- Value lookup in a header map. -/
def hGet : Headers → String → Option String
  | [], _ => none
  | p :: rest, k => if p.1 = k then some p.2 else hGet rest k

/-- `Multipart` (src/types.rs:4-24). -/
structure Multipart where
  partNumber : Nat
  uploadId : String
deriving DecidableEq

/-- `Multipart::query_string` (src/types.rs:11-16). -/
def Multipart.queryString (m : Multipart) : String :=
  "?partNumber=" ++ toString m.partNumber ++ "&uploadId=" ++ m.uploadId

/-- `Part` (src/command.rs:7-13). -/
structure Part where
  partNumber : Nat
  etag : String
deriving DecidableEq

/-- The `Display` impl of `Part` (src/command.rs:15-23). -/
def Part.render (p : Part) : String :=
  "<Part><PartNumber>" ++ toString p.partNumber ++ "</PartNumber><ETag>" ++
    p.etag ++ "</ETag></Part>"

/-- `CompleteMultipartUploadData` (src/command.rs:25-28). -/
structure CompleteMultipartUploadData where
  parts : List Part
deriving DecidableEq

/-- The `Display` impl of `CompleteMultipartUploadData`
(src/command.rs:30-38): the XML manifest string. -/
def CompleteMultipartUploadData.render (d : CompleteMultipartUploadData) : String :=
  "<CompleteMultipartUpload>" ++ String.join (d.parts.map Part.render) ++
    "</CompleteMultipartUpload>"

/-- `Command` (src/command.rs:51-124).  `pfx` stands for the Rust field
`prefix`; `endOpt` for `end`; `fromPath` for `from`. -/
inductive Command where
  | headObject
  | copyObject (fromPath : String) (headers : Headers)
  | deleteObject
  | deleteObjectTagging
  | getObject
  | getObjectRange (start : Nat) (endOpt : Option Nat)
  | getObjectTagging
  | putObject (content : List Nat) (headers : Headers) (multipart : Option Multipart)
  | putObjectTagging (tags : String)
  | listMultipartUploads (pfx : Option String) (delimiter : Option String)
      (keyMarker : Option String) (maxUploads : Option Nat)
  | listObjects (pfx : String) (delimiter : Option String)
      (marker : Option String) (maxKeys : Option Nat)
  | listObjectsV2 (pfx : String) (delimiter : Option String)
      (continuationToken : Option String) (startAfter : Option String) (maxKeys : Option Nat)
  | getBucketLocation
  | initiateMultipartUpload (headers : Headers)
  | uploadPart (partNumber : Nat) (content : List Nat) (uploadId : String)
  | abortMultipartUpload (uploadId : String)
  | completeMultipartUpload (uploadId : String) (data : CompleteMultipartUploadData)
deriving DecidableEq

/-- HTTP methods used by the crate. -/
inductive Method where
  | GET | PUT | DELETE | POST | HEAD
deriving DecidableEq

/-- `Method::as_str`. -/
def Method.asStr : Method → String
  | .GET => "GET"
  | .PUT => "PUT"
  | .DELETE => "DELETE"
  | .POST => "POST"
  | .HEAD => "HEAD"

/-- `Command::http_method` (src/command.rs:127-148). -/
def Command.httpMethod : Command → Method
  | .getObject | .getObjectRange _ _ | .listObjects _ _ _ _ | .listObjectsV2 _ _ _ _ _
  | .getBucketLocation | .getObjectTagging | .listMultipartUploads _ _ _ _ => .GET
  | .putObject _ _ _ | .copyObject _ _ | .putObjectTagging _ | .uploadPart _ _ _ => .PUT
  | .deleteObject | .deleteObjectTagging | .abortMultipartUpload _ => .DELETE
  | .initiateMultipartUpload _ | .completeMultipartUpload _ _ => .POST
  | .headObject => .HEAD

/-- `Command::content_length` (src/command.rs:150-158); string lengths are
UTF-8 byte lengths, as in Rust. -/
def Command.contentLength : Command → Nat
  | .putObject content _ _ => content.length
  | .putObjectTagging tags => (asBytes tags).length
  | .uploadPart _ content _ => content.length
  | .completeMultipartUpload _ data => (asBytes data.render).length
  | _ => 0

/-- `EMPTY_PAYLOAD_SHA` (src/constants.rs:3-4). -/
def EMPTY_PAYLOAD_SHA : String :=
  "e3b0c44298fc1c149afbf4c8996fb92427ae41e4649b934ca495991b7852b855"

/-- `Command::sha256` (src/command.rs:169-188): the payload hash placed in
`x-amz-content-sha256` and signed in the canonical request.  Only
`PutObject`, `PutObjectTagging` and `CompleteMultipartUpload` hash their
payload; every other variant — `UploadPart` included — falls through to the
empty-payload constant. -/
def Command.sha256 : Command → String
  | .putObject content _ _ => hexStr (sha256Bytes content)
  | .putObjectTagging tags => hexStr (sha256Bytes (asBytes tags))
  | .completeMultipartUpload _ data => hexStr (sha256Bytes (asBytes data.render))
  | _ => EMPTY_PAYLOAD_SHA

/-- The request body transmitted by `Bucket::send_request`
(src/bucket.rs:644-653), as bytes. -/
def Command.sendBody : Command → List Nat
  | .putObject content _ _ => content
  | .putObjectTagging tags => asBytes tags
  | .uploadPart _ content _ => content
  | .completeMultipartUpload _ data => asBytes data.render
  | _ => []

/-- Discriminator for the `UploadPart` variant. -/
def Command.isUploadPart : Command → Bool
  | .uploadPart _ _ _ => true
  | _ => false

/-! ## Percent encoding and SigV4 canonicalization (src/signature.rs)

The `percent_encoding` crate encodes, byte-wise, every byte in the chosen
`AsciiSet` and every non-ASCII byte, as `%HH` with uppercase hex; decoding
maps `%HH` back and passes invalid sequences through unchanged.  URLs are
handled at the byte level; the `decode_utf8_lossy` step of
`canonical_uri_string` is the identity on the (valid UTF-8) inputs the crate
produces, so it is modelled as the identity on bytes.
-/

/-- The `FRAGMENT` `AsciiSet` (src/signature.rs:18-48): controls plus the
listed reserved/unsafe characters. -/
def fragmentByte (b : Nat) : Bool :=
  b < 32 || b == 127 ||
  [58, 63, 35, 91, 93, 64, 33, 36, 38, 39, 40, 41, 42, 43, 44, 59, 61,
   34, 32, 60, 62, 37, 123, 125, 124, 92, 94, 96].contains b

/-- `FRAGMENT_SLASH` (src/signature.rs:50): `FRAGMENT` plus `/`. -/
def fragmentSlashByte (b : Nat) : Bool := fragmentByte b || b == 47

/-- Byte value of an uppercase hex digit. -/
def hexUpper (n : Nat) : Nat := if n < 10 then 48 + n else 55 + n

/-- Percent-encode one byte: non-ASCII bytes and set members become `%HH`. -/
def pctEncodeByte (inSet : Nat → Bool) (b : Nat) : List Nat :=
  if 128 ≤ b || inSet b then [37, hexUpper (b / 16 % 16), hexUpper (b % 16)] else [b]

/-- `utf8_percent_encode` over a byte string. -/
def pctEncode (inSet : Nat → Bool) (l : List Nat) : List Nat :=
  l.flatMap (pctEncodeByte inSet)

/-- `uri_encode` (src/signature.rs:52-58). -/
def uriEncode (encodeSlash : Bool) (l : List Nat) : List Nat :=
  if encodeSlash then pctEncode fragmentSlashByte l else pctEncode fragmentByte l

def isHexDigitB (b : Nat) : Bool :=
  (48 ≤ b && b ≤ 57) || (65 ≤ b && b ≤ 70) || (97 ≤ b && b ≤ 102)

def hexDigitVal (b : Nat) : Nat :=
  if b ≤ 57 then b - 48 else if b ≤ 70 then b - 55 else b - 87

/-- `percent_decode`: `%HH` becomes a byte; invalid sequences pass through. -/
def pctDecode : List Nat → List Nat
  | b :: h :: lo :: rest =>
    if b == 37 && isHexDigitB h && isHexDigitB lo then
      (hexDigitVal h * 16 + hexDigitVal lo) :: pctDecode rest
    else
      b :: pctDecode (h :: lo :: rest)
  | b :: rest => b :: pctDecode rest
  | [] => []

/-- `canonical_uri_string` (src/signature.rs:60-65): decode the path's
percent-encoding, then re-encode with `FRAGMENT` (slash preserved). -/
def canonicalUriString (path : List Nat) : List Nat :=
  uriEncode false (pctDecode path)

/-- `form_urlencoded` decoding of one query component: `+` means space,
then percent-decode. -/
def formDecode (l : List Nat) : List Nat :=
  pctDecode (l.map (fun b => if b == 43 then 32 else b))

/-- Split a query component at the first `=`; the part after it is the
value (empty when there is no `=`). -/
def splitEq : List Nat → List Nat × List Nat
  | [] => ([], [])
  | b :: rest =>
    if b == 61 then ([], rest)
    else
      let p := splitEq rest
      (b :: p.1, p.2)

/-- Decode one `name=value` component. -/
def parsePair (seg : List Nat) : List Nat × List Nat :=
  (formDecode (splitEq seg).1, formDecode (splitEq seg).2)

/-- `Url::query_pairs` (via `form_urlencoded::parse`): split the raw query
on `&`, skip empty components, decode each. -/
def parseQueryPairs (q : List Nat) : List (List Nat × List Nat) :=
  ((q.splitOn 38).filter (fun s => !s.isEmpty)).map parsePair

/-- Byte-wise lexicographic order — Rust's `Ord` for `String`/`Vec<u8>`. -/
def lexLe : List Nat → List Nat → Bool
  | [], _ => true
  | _ :: _, [] => false
  | a :: as, b :: bs => if a < b then true else if b < a then false else lexLe as bs

/-- Rust's derived `Ord` on `(String, String)` pairs: by key, then value. -/
def pairLe (p q : List Nat × List Nat) : Bool :=
  if p.1 = q.1 then lexLe p.2 q.2 else lexLe p.1 q.1

def pairLeR (p q : List Nat × List Nat) : Prop := pairLe p q = true

instance : DecidableRel pairLeR := fun p q => inferInstanceAs (Decidable (_ = true))

/-- An encoded `k=v` query component. -/
def encPair (p : List Nat × List Nat) : List Nat :=
  pctEncode fragmentSlashByte p.1 ++ 61 :: pctEncode fragmentSlashByte p.2

/-- `canonical_query_string` (src/signature.rs:80-97): parse the query
pairs, sort them (`Vec::sort`, the derived pair order), percent-encode both
components with `FRAGMENT_SLASH`, join `k=v` with `&`. -/
def canonicalQueryString (q : List Nat) : List Nat :=
  List.intercalate [38] ((List.insertionSort pairLeR (parseQueryPairs q)).map encPair)

/-- Byte-wise order on strings, via UTF-8. -/
def strLe (a b : String) : Bool := lexLe (asBytes a) (asBytes b)

/-- ASCII lowercasing of a string (header names are ASCII; models
`str::to_lowercase` on them), kernel-evaluable. -/
def lowerStr (s : String) : String := String.mk (s.data.map Char.toLower)

def isWsp (c : Char) : Bool := c == ' ' || c == '\t' || c == '\n' || c == '\r'

/-- Whitespace trim of a header value (models `str::trim`),
kernel-evaluable. -/
def trimStr (s : String) : String :=
  String.mk (((s.data.dropWhile isWsp).reverse.dropWhile isWsp).reverse)

def strLeR (a b : String) : Prop := strLe a b = true

instance : DecidableRel strLeR := fun a b => inferInstanceAs (Decidable (_ = true))

/-- `canonical_header_string` (src/signature.rs:67-78): `name:value` with
lowercase name and trimmed value, lines sorted, joined with newlines. -/
def canonicalHeaderString (hs : Headers) : String :=
  String.intercalate "\n"
    (List.insertionSort strLeR (hs.map (fun p => lowerStr p.1 ++ ":" ++ trimStr p.2)))

/-- `signed_header_string` (src/signature.rs:99-106): lowercase names,
sorted, joined with `;`. -/
def signedHeaderString (hs : Headers) : String :=
  String.intercalate ";" (List.insertionSort strLeR (hs.map (fun p => lowerStr p.1)))

/-- Render an ASCII byte string as a `String`. -/
def ofBytes (l : List Nat) : String := String.mk (l.map Char.ofNat)

/-- `canonical_request` (src/signature.rs:108-123).  The URL enters as its
raw path and query byte strings. -/
def canonicalRequest (method : Method) (path query : List Nat) (hs : Headers)
    (payloadSha : String) : String :=
  method.asStr ++ "\n" ++ ofBytes (canonicalUriString path) ++ "\n" ++
    ofBytes (canonicalQueryString query) ++ "\n" ++ canonicalHeaderString hs ++
    "\n\n" ++ signedHeaderString hs ++ "\n" ++ payloadSha

/-- `scope_string` (src/signature.rs:125-131). -/
def scopeString (shortDate region : String) : String :=
  shortDate ++ "/" ++ region ++ "/s3/aws4_request"

/-- `string_to_sign` (src/signature.rs:133-147). -/
def stringToSign (longDate shortDate region : String) (canonicalReq : String) : String :=
  "AWS4-HMAC-SHA256\n" ++ longDate ++ "\n" ++ scopeString shortDate region ++ "\n" ++
    hexStr (sha256Bytes (asBytes canonicalReq))

/-- `authorization_header` (src/signature.rs:173-188). -/
def authorizationHeader (accessKey shortDate region signedHeaders signature : String) :
    String :=
  "AWS4-HMAC-SHA256 Credential=" ++ accessKey ++ "/" ++ scopeString shortDate region ++
    ",SignedHeaders=" ++ signedHeaders ++ ",Signature=" ++ signature

/-! ## MD5 and base64 (the `md5` and `base64` crates, used by
`md5_url_encode` in src/lib.rs:52-54) -/

/-- The 64 MD5 sine-derived constants (RFC 1321). -/
def md5K : List Nat :=
  [0xd76aa478, 0xe8c7b756, 0x242070db, 0xc1bdceee, 0xf57c0faf, 0x4787c62a,
   0xa8304613, 0xfd469501, 0x698098d8, 0x8b44f7af, 0xffff5bb1, 0x895cd7be,
   0x6b901122, 0xfd987193, 0xa679438e, 0x49b40821, 0xf61e2562, 0xc040b340,
   0x265e5a51, 0xe9b6c7aa, 0xd62f105d, 0x02441453, 0xd8a1e681, 0xe7d3fbc8,
   0x21e1cde6, 0xc33707d6, 0xf4d50d87, 0x455a14ed, 0xa9e3e905, 0xfcefa3f8,
   0x676f02d9, 0x8d2a4c8a, 0xfffa3942, 0x8771f681, 0x6d9d6122, 0xfde5380c,
   0xa4beea44, 0x4bdecfa9, 0xf6bb4b60, 0xbebfbc70, 0x289b7ec6, 0xeaa127fa,
   0xd4ef3085, 0x04881d05, 0xd9d4d039, 0xe6db99e5, 0x1fa27cf8, 0xc4ac5665,
   0xf4292244, 0x432aff97, 0xab9423a7, 0xfc93a039, 0x655b59c3, 0x8f0ccc92,
   0xffeff47d, 0x85845dd1, 0x6fa87e4f, 0xfe2ce6e0, 0xa3014314, 0x4e0811a1,
   0xf7537e82, 0xbd3af235, 0x2ad7d2bb, 0xeb86d391]

/-- MD5 per-round left-rotation amounts. -/
def md5S (i : Nat) : Nat :=
  if i < 16 then [7, 12, 17, 22].getD (i % 4) 0
  else if i < 32 then [5, 9, 14, 20].getD (i % 4) 0
  else if i < 48 then [4, 11, 16, 23].getD (i % 4) 0
  else [6, 10, 15, 21].getD (i % 4) 0

/-- 32-bit left rotation. -/
def rotl (n x : Nat) : Nat := u32 ((x <<< n) ||| (x >>> (32 - n)))

/-- MD5 round function. -/
def md5F (i b c d : Nat) : Nat :=
  if i < 16 then (b &&& c) ||| ((b ^^^ 4294967295) &&& d)
  else if i < 32 then (d &&& b) ||| ((d ^^^ 4294967295) &&& c)
  else if i < 48 then b ^^^ c ^^^ d
  else c ^^^ (b ||| (d ^^^ 4294967295))

/-- MD5 message-word index per round. -/
def md5G (i : Nat) : Nat :=
  if i < 16 then i
  else if i < 32 then (5 * i + 1) % 16
  else if i < 48 then (3 * i + 5) % 16
  else (7 * i) % 16

/-- Little-endian byte rendering of a value into a fixed width. -/
def leBytes : Nat → Nat → List Nat
  | 0, _ => []
  | n + 1, v => v % 256 :: leBytes n (v / 256)

/-- Little-endian 32-bit words of a block. -/
def leWords : List Nat → List Nat
  | a :: b :: c :: d :: rest => (a + 256 * (b + 256 * (c + 256 * d))) :: leWords rest
  | _ => []

/-- MD5 state. -/
structure Md5St where
  a : Nat
  b : Nat
  c : Nat
  d : Nat
deriving Repr, DecidableEq

/-- One MD5 block compression. -/
def md5Compress (st : Md5St) (block : List Nat) : Md5St :=
  let m := leWords block
  let fin := (List.range 64).foldl
    (fun (s : Md5St) i =>
      let f := u32 (md5F i s.b s.c s.d + s.a + md5K.getD i 0 + m.getD (md5G i) 0)
      ⟨s.d, u32 (s.b + rotl (md5S i) f), s.b, s.c⟩)
    st
  ⟨u32 (st.a + fin.a), u32 (st.b + fin.b), u32 (st.c + fin.c), u32 (st.d + fin.d)⟩

/-- MD5 digest (16 bytes) — the model of `md5::compute`. -/
def md5Bytes (msg : List Nat) : List Nat :=
  let padded := msg ++ 128 :: List.replicate ((64 - (msg.length + 9) % 64) % 64) 0
      ++ leBytes 8 (msg.length * 8)
  let st := (toBlocks padded).foldl md5Compress ⟨0x67452301, 0xefcdab89, 0x98badcfe, 0x10325476⟩
  leBytes 4 st.a ++ leBytes 4 st.b ++ leBytes 4 st.c ++ leBytes 4 st.d

/-- A standard-alphabet base64 character. -/
def b64Char (n : Nat) : Nat :=
  if n < 26 then 65 + n
  else if n < 52 then 97 + (n - 26)
  else if n < 62 then 48 + (n - 52)
  else if n == 62 then 43 else 47

/-- Standard base64 with padding — the model of
`general_purpose::STANDARD.encode`. -/
def base64Encode : List Nat → List Nat
  | a :: b :: c :: rest =>
    b64Char (a / 4) :: b64Char (a % 4 * 16 + b / 16) ::
      b64Char (b % 16 * 4 + c / 64) :: b64Char (c % 64) :: base64Encode rest
  | [a, b] => [b64Char (a / 4), b64Char (a % 4 * 16 + b / 16), b64Char (b % 16 * 4), 61]
  | [a] => [b64Char (a / 4), b64Char (a % 4 * 16), 61, 61]
  | [] => []

/-- `md5_url_encode` (src/lib.rs:52-54): base64 of the raw MD5 digest. -/
def md5UrlEncode (s : List Nat) : String := ofBytes (base64Encode (md5Bytes s))

/-! ## Bucket operations (src/bucket.rs)

The `Bucket` carries its endpoint binding; network effects are modelled by
returning the `Command`/request data that `send_request` would transmit, or
the error produced before any request is issued.  `error.rs` in this tree
lags behind `bucket.rs`, which constructs `S3Error::Range` and
`S3Error::UnexpectedResponse`; the error model follows `bucket.rs`.
-/

/-- `CHUNK_SIZE` (src/bucket.rs:28): 8 MiB. -/
def CHUNK_SIZE : Nat := 8 * 1024 * 1024

/-- The `S3Error` variants relevant to the modelled paths. -/
inductive S3Err where
  | range (msg : String)
  | unexpectedResponse (msg : String)
  | httpFailWithBody (status : Nat) (body : String)
deriving DecidableEq

/-- Endpoint binding of a `Bucket` (src/bucket.rs:48-56); `domain` is the
result of `host_domain()`. -/
structure BucketCfg where
  name : String
  domain : String
  region : String
  accessKeyId : String
  accessKeySecret : String
  pathStyle : Bool
deriving DecidableEq

/-- `Bucket::get_range` (src/bucket.rs:138-151): client-side validation,
then the command handed to `send_request`.  An `error` result is returned
before any request is issued. -/
def getRange (path : String) (start : Nat) (endOpt : Option Nat) :
    Except S3Err (Command × String) :=
  match endOpt with
  | some e =>
    if start ≥ e then Except.error (S3Err.range "start must be < than end")
    else Except.ok (Command.getObjectRange start (some e), path)
  | none => Except.ok (Command.getObjectRange start none, path)

/-- The `Range` header value of `build_headers` (src/bucket.rs:798-807). -/
def rangeHeaderValue (start : Nat) (endOpt : Option Nat) : String :=
  match endOpt with
  | some e => "bytes=" ++ toString start ++ "-" ++ toString e
  | none => "bytes=" ++ toString start ++ "-"

/-- `std::cmp::max` on `Option<String>`: `None` is smaller than any
`Some`, strings compare byte-lexicographically; on equality the second
argument is returned. -/
def optStrMax (a b : Option String) : Option String :=
  match a, b with
  | none, b => b
  | some x, none => some x
  | some x, some y => if lexLe (asBytes x) (asBytes y) then some y else some x

/-- The command built by `Bucket::list_page` (src/bucket.rs:483-501): v2
passes the fields through; v1 collapses continuation-token and start-after
into the single `marker` via `std::cmp::max`. -/
def listPageCommand (listObjectsV2 : Bool) (pfx : String) (delimiter : Option String)
    (continuationToken startAfter : Option String) (maxKeys : Option Nat) : Command :=
  if listObjectsV2 then
    Command.listObjectsV2 pfx delimiter continuationToken startAfter maxKeys
  else
    Command.listObjects pfx delimiter (optStrMax continuationToken startAfter) maxKeys

/-- Query pairs appended by `build_url` through `query_pairs_mut`
(src/bucket.rs:887-959), in appended order. -/
def buildUrlQueryPairs : Command → List (String × String)
  | Command.listObjectsV2 pfx delimiter continuationToken startAfter maxKeys =>
    (match delimiter with | some d => [("delimiter", d)] | none => []) ++
    [("prefix", pfx), ("list-type", "2")] ++
    (match continuationToken with | some t => [("continuation-token", t)] | none => []) ++
    (match startAfter with | some s => [("start-after", s)] | none => []) ++
    (match maxKeys with | some m => [("max-keys", toString m)] | none => [])
  | Command.listObjects pfx delimiter marker maxKeys =>
    (match delimiter with | some d => [("delimiter", d)] | none => []) ++
    [("prefix", pfx)] ++
    (match marker with | some m => [("marker", m)] | none => []) ++
    (match maxKeys with | some m => [("max-keys", toString m)] | none => [])
  | Command.listMultipartUploads pfx delimiter keyMarker maxUploads =>
    (match delimiter with | some d => [("delimiter", d)] | none => []) ++
    (match pfx with | some p => [("prefix", p)] | none => []) ++
    (match keyMarker with | some k => [("key-marker", k)] | none => []) ++
    (match maxUploads with | some m => [("max-uploads", toString m)] | none => [])
  | Command.putObjectTagging _ => [("tagging", "")]
  | Command.getObjectTagging => [("tagging", "")]
  | Command.deleteObjectTagging => [("tagging", "")]
  | _ => []

/-! ### `build_headers` (src/bucket.rs:686-840) -/

/-- Does the map contain a name? -/
def hHas (hs : Headers) (k : String) : Prop := k ∈ hs.map Prod.fst

instance (hs : Headers) (k : String) : Decidable (hHas hs k) :=
  inferInstanceAs (Decidable (k ∈ hs.map Prod.fst))

/-- The `HeaderMap` taken out of the command by `build_headers`
(src/bucket.rs:695-700, `std::mem::take`). -/
def Command.takeHeaders : Command → Headers
  | Command.putObject _ hs _ => hs
  | Command.initiateMultipartUpload hs => hs
  | Command.copyObject _ hs => hs
  | _ => []

/-- The command-specific header block of `build_headers`
(src/bucket.rs:713-764). -/
def cmdHeaders1 (cmd : Command) (hs : Headers) : Headers :=
  match cmd with
  | Command.copyObject fromPath _ => hInsert hs "x-amz-copy-source" fromPath
  | Command.listObjects _ _ _ _ => hs
  | Command.listObjectsV2 _ _ _ _ _ => hs
  | Command.getObject => hs
  | Command.getObjectTagging => hs
  | Command.getBucketLocation => hs
  | Command.initiateMultipartUpload _ =>
    if hHas hs "content-type" then hs
    else hInsert hs "content-type" "application/octet-stream"
  | Command.completeMultipartUpload _ _ => hInsert hs "content-type" "application/xml"
  | Command.putObject _ _ multipart =>
    if multipart.isNone ∧ ¬ hHas hs "content-type" then
      hInsert hs "content-type" "application/octet-stream"
    else hs
  | Command.deleteObject => hs
  | Command.getObjectRange _ _ => hs
  | Command.headObject => hs
  | _ =>
    hInsert (hInsert hs "content-length" (toString cmd.contentLength))
      "content-type" "text/plain"

/-- The second command-specific header block of `build_headers`
(src/bucket.rs:776-809): `content-md5`, `accept` and `range`. -/
def cmdHeaders2 (cmd : Command) (hs : Headers) : Headers :=
  match cmd with
  | Command.putObjectTagging tags => hInsert hs "content-md5" (md5UrlEncode (asBytes tags))
  | Command.putObject content _ _ => hInsert hs "content-md5" (md5UrlEncode content)
  | Command.uploadPart _ content _ => hInsert hs "content-md5" (md5UrlEncode content)
  | Command.getObject => hInsert hs "accept" "application/octet-stream"
  | Command.getObjectRange start endOpt =>
    hInsert (hInsert hs "accept" "application/octet-stream")
      "range" (rangeHeaderValue start endOpt)
  | _ => hs

/-- Every header inserted before the `Authorization` header is computed —
the set signed by the canonical request (src/bucket.rs:691-809). -/
def preAuthHeaders (cfg : BucketCfg) (cmd : Command) (nowLong : String) : Headers :=
  let hs0 := cmd.takeHeaders
  let hs1 := hInsert hs0 "host"
    (if cfg.pathStyle then cfg.domain else cfg.name ++ "." ++ cfg.domain)
  let hs2 := cmdHeaders1 cmd hs1
  let hs3 := hInsert (hInsert hs2 "x-amz-content-sha256" cmd.sha256) "x-amz-date" nowLong
  cmdHeaders2 cmd hs3

/-- `Bucket::build_headers` (src/bucket.rs:686-840): sign the pre-auth
header set, insert `Authorization`, and only then insert the RFC 2822
`Date` header.  The three timestamp renderings of `now` enter as strings. -/
def buildHeaders (cfg : BucketCfg) (cmd : Command) (path query : List Nat)
    (nowLong nowShort nowRfc2822 : String) : Headers :=
  let hs := preAuthHeaders cfg cmd nowLong
  let canonicalReq := canonicalRequest cmd.httpMethod path query hs cmd.sha256
  let sts := stringToSign nowLong nowShort cfg.region canonicalReq
  let key := signingKey nowShort cfg.accessKeySecret cfg.region
  let signature := hexStr (hmacSha256 key (asBytes sts))
  let auth := authorizationHeader cfg.accessKeyId nowShort cfg.region
    (signedHeaderString hs) signature
  hInsert (hInsert hs "authorization" auth) "date" nowRfc2822

/-! ### The multipart writer task of `put_stream_with`
(src/bucket.rs:305-473)

The writer loop is driven by the already-read first chunk and the messages
arriving on the bounded channel: `some chunk` for data, `none` for the
"no more data" sentinel; an exhausted message list models a closed channel
(both end the loop).  Network calls are oracles: the outcome of
`initiate_multipart_upload`, of each `multipart_request` (by part number and
chunk), of `abort_upload` and of `complete_multipart_upload`.  The `Req`
trace records each S3 request the writer issues, in order. -/

/-- Requests the writer task can issue. -/
inductive Req where
  | initiate
  | putPart (n : Nat) (chunk : List Nat)
  | abort
  | complete (parts : List (Nat × String))
deriving DecidableEq

/-- Response of one `multipart_request`: the optional `ETag` header. -/
structure PartResp where
  etag : Option String
deriving DecidableEq

/-- `InitiateMultipartUploadResponse` (src/types.rs:269-277). -/
structure InitOk where
  key : String
  uploadId : String
deriving DecidableEq

/-- `PutStreamResponse` (src/types.rs:279-283). -/
structure PutStreamResponse where
  statusCode : Nat
  uploadedBytes : Nat
deriving DecidableEq

/-- The chunks the writer drains from the channel, in arrival order, up to
the sentinel or the end of the message stream (src/bucket.rs:372-382). -/
def recvChunks : List (Option (List Nat)) → List (List Nat)
  | [] => []
  | none :: _ => []
  | some c :: rest => c :: recvChunks rest

/-- The part-upload loop (src/bucket.rs:365-414): upload each chunk with
the next part number; a missing `ETag` aborts nothing and fails; a failed
upload issues one abort and fails with the original error when the abort
succeeds, or with the abort's own error (the `?` on `abort_upload`) when it
fails.  Returns the collected etags and the trace of issued requests. -/
def uploadLoop (partRes : Nat → List Nat → Except S3Err PartResp)
    (abortRes : Except S3Err Unit) :
    Nat → List (List Nat) → Except S3Err (List String) × List Req
  | _, [] => (Except.ok [], [])
  | pn, c :: rest =>
    match partRes (pn + 1) c with
    | Except.ok resp =>
      match resp.etag with
      | some t =>
        let r := uploadLoop partRes abortRes (pn + 1) rest
        (r.1.map (fun ts => t :: ts), Req.putPart (pn + 1) c :: r.2)
      | none =>
        (Except.error (S3Err.unexpectedResponse "missing ETag in multipart response headers"),
         [Req.putPart (pn + 1) c])
    | Except.error e =>
      match abortRes with
      | Except.ok _ => (Except.error e, [Req.putPart (pn + 1) c, Req.abort])
      | Except.error ae => (Except.error ae, [Req.putPart (pn + 1) c, Req.abort])

/-- The writer task of `put_stream_with` (src/bucket.rs:353-441): initiate,
upload the first chunk and the received chunks as parts 1.., then complete
with the manifest built by enumerating the collected etags from 1. -/
def runWriter (initRes : Except S3Err InitOk)
    (partRes : Nat → List Nat → Except S3Err PartResp)
    (abortRes : Except S3Err Unit)
    (completeRes : List (Nat × String) → Except S3Err Nat)
    (firstChunk : List Nat) (msgs : List (Option (List Nat))) :
    Except S3Err PutStreamResponse × List Req :=
  match initRes with
  | Except.error e => (Except.error e, [Req.initiate])
  | Except.ok _ =>
    let chunks := firstChunk :: recvChunks msgs
    let lp := uploadLoop partRes abortRes 0 chunks
    match lp.1 with
    | Except.error e => (Except.error e, Req.initiate :: lp.2)
    | Except.ok etags =>
      let parts := etags.enum.map (fun p => (p.1 + 1, p.2))
      match completeRes parts with
      | Except.ok status =>
        (Except.ok ⟨status, (chunks.map List.length).sum⟩,
         Req.initiate :: lp.2 ++ [Req.complete parts])
      | Except.error e => (Except.error e, Req.initiate :: lp.2 ++ [Req.complete parts])

/-! ### The chunk pipeline of `put_stream_with` (src/bucket.rs:342-470)

The reader loop, the `flume::bounded(2)` channel and the writer task form a
producer/consumer pipeline.  A state records how many chunks remain in the
stream, whether the reader currently holds a freshly read chunk buffer,
how many chunks sit in the channel (capacity 2), and how many chunk-sized
buffers the uploader holds: `0` when idle, `1` once it owns a chunk
(`multipart_request`'s `chunk: Vec<u8>`), `2` while the request is in
flight — `send_request` duplicates the payload with `content.to_vec()`
(src/bucket.rs:645) and the original chunk stays alive alongside that body
copy until the response arrives.  The initial state models the moment the
writer task starts: the first chunk has been read and moved to the
uploader. -/

structure PipeState where
  toRead : Nat
  readerHolds : Bool
  queue : Nat
  uploader : Nat
deriving DecidableEq, Repr

/-- One scheduling step of the pipeline: the reader reads a chunk, the
reader hands a chunk to the channel (capacity 2), the uploader takes a
chunk from the channel, the uploader enters `send_request` — which copies
the chunk into the request body (`content.to_vec()`) — or the uploader
finishes transmitting, dropping both the chunk and its body copy. -/
inductive PipeStep : PipeState → PipeState → Prop where
  | read {n : Nat} {q : Nat} {u : Nat} :
      PipeStep ⟨n + 1, false, q, u⟩ ⟨n, true, q, u⟩
  | send {n : Nat} {q : Nat} {u : Nat} (h : q < 2) :
      PipeStep ⟨n, true, q, u⟩ ⟨n, false, q + 1, u⟩
  | recv {n : Nat} {r : Bool} {q : Nat} :
      PipeStep ⟨n, r, q + 1, 0⟩ ⟨n, r, q, 1⟩
  | copyBody {n : Nat} {r : Bool} {q : Nat} :
      PipeStep ⟨n, r, q, 1⟩ ⟨n, r, q, 2⟩
  | finishUpload {n : Nat} {r : Bool} {q : Nat} :
      PipeStep ⟨n, r, q, 2⟩ ⟨n, r, q, 0⟩

/-- Start of a true multipart upload of `1 + n` chunks: the first chunk is
held by the writer task, `n` remain to be read. -/
def pipeInit (n : Nat) : PipeState := ⟨n, false, 0, 1⟩

/-- States reachable by interleaved scheduling. -/
def PipeReach (s t : PipeState) : Prop := Relation.ReflTransGen PipeStep s t

/-- Chunk-sized buffers simultaneously held in memory, the uploader's
in-flight body copy included. -/
def heldChunks (s : PipeState) : Nat :=
  (if s.readerHolds then 1 else 0) + s.queue + s.uploader

/-- Bytes of chunk payload simultaneously held, for full `CHUNK_SIZE`
chunks. -/
def heldBytes (s : PipeState) : Nat := heldChunks s * CHUNK_SIZE

/-- Every part upload in `chunks` (numbered from `pn + 1`) succeeds with an
`ETag` header present. -/
def PartOk (partRes : Nat → List Nat → Except S3Err PartResp) (pn : Nat)
    (chunks : List (List Nat)) : Prop :=
  ∀ j c, chunks.get? j = some c → ∃ t, partRes (pn + j + 1) c = Except.ok ⟨some t⟩

/-- The `UploadPart` request sequence for consecutive chunks, numbered from
`pn + 1`. -/
def putPartTrace (pn : Nat) : List (List Nat) → List Req
  | [] => []
  | c :: rest => Req.putPart (pn + 1) c :: putPartTrace (pn + 1) rest

/-! ## Helper lemmas -/

theorem hGet_replace (m : Headers) (k v : String) (hm : k ∈ m.map Prod.fst) :
    hGet (m.map (fun p => if p.1 = k then (k, v) else p)) k = some v := by
  induction m with
  | nil => simp at hm
  | cons p rest ih =>
    by_cases hp : p.1 = k
    · simp [hGet, hp]
    · have hk : k ∈ rest.map Prod.fst := by
        simp only [List.map_cons, List.mem_cons] at hm
        exact hm.resolve_left (fun h => hp h.symm)
      simp [hGet, hp, ih hk]

theorem hGet_append_single (m : Headers) (k v : String) (hm : k ∉ m.map Prod.fst) :
    hGet (m ++ [(k, v)]) k = some v := by
  induction m with
  | nil => simp [hGet]
  | cons p rest ih =>
    simp only [List.map_cons, List.mem_cons, not_or] at hm
    have hp : ¬(p.1 = k) := fun h => hm.1 h.symm
    simp [hGet, hp, ih hm.2]

/-- Inserting a header makes its value retrievable. -/
theorem hGet_hInsert (m : Headers) (k v : String) : hGet (hInsert m k v) k = some v := by
  unfold hInsert
  split
  · exact hGet_replace m k v (by assumption)
  · exact hGet_append_single m k v (by assumption)

theorem hGet_map_replace_ne (m : Headers) (k v k' : String) (hne : k ≠ k') :
    hGet (m.map (fun p => if p.1 = k then (k, v) else p)) k' = hGet m k' := by
  induction m with
  | nil => simp
  | cons p rest ih =>
    by_cases hp : p.1 = k
    · simp [hGet, hp, hne, ih]
    · simp [hGet, hp, ih]

theorem hGet_append_ne (m : Headers) (k v k' : String) (hne : k ≠ k') :
    hGet (m ++ [(k, v)]) k' = hGet m k' := by
  induction m with
  | nil => simp [hGet, hne]
  | cons p rest ih => simp [hGet, ih]

/-- Inserting a header does not change other lookups. -/
theorem hGet_hInsert_ne (m : Headers) (k v k' : String) (hne : k ≠ k') :
    hGet (hInsert m k v) k' = hGet m k' := by
  unfold hInsert
  split
  · exact hGet_map_replace_ne m k v k' hne
  · exact hGet_append_ne m k v k' hne

/-- Membership of names after an insert. -/
theorem hHas_hInsert (m : Headers) (k v k' : String) :
    hHas (hInsert m k v) k' ↔ k' = k ∨ hHas m k' := by
  unfold hHas hInsert
  split
  · rename_i hmem
    constructor
    · intro h
      rcases List.mem_map.mp h with ⟨p, hp, hfst⟩
      rcases List.mem_map.mp hp with ⟨p0, hp0, rfl⟩
      by_cases h0 : p0.1 = k
      · left
        simp [h0] at hfst
        exact hfst.symm
      · right
        simp [h0] at hfst
        exact hfst ▸ List.mem_map.mpr ⟨p0, hp0, rfl⟩
    · intro h
      rcases h with rfl | h
      · rcases List.mem_map.mp hmem with ⟨p0, hp0, hfst⟩
        refine List.mem_map.mpr ⟨(k', v), List.mem_map.mpr ⟨p0, hp0, ?_⟩, rfl⟩
        simp [hfst]
      · rcases List.mem_map.mp h with ⟨p0, hp0, hfst⟩
        by_cases h0 : p0.1 = k
        · refine List.mem_map.mpr ⟨(k, v), List.mem_map.mpr ⟨p0, hp0, by simp [h0]⟩, ?_⟩
          simp [← hfst, h0]
        · exact List.mem_map.mpr ⟨p0, List.mem_map.mpr ⟨p0, hp0, by simp [h0]⟩, hfst⟩
  · simp only [List.map_append, List.mem_append, List.map_cons, List.map_nil,
      List.mem_singleton, List.mem_cons]
    constructor
    · intro h
      rcases h with h | h
      · exact Or.inr h
      · simp at h
        exact Or.inl h
    · intro h
      rcases h with rfl | h
      · right; simp
      · exact Or.inl h

/-- The hex of the SHA-256 of the empty byte string is the crate's
`EMPTY_PAYLOAD_SHA` constant. -/
theorem emptyShaEq : EMPTY_PAYLOAD_SHA = hexStr (sha256Bytes []) := by decide

/-! ## Claim C8 -/

/-- C8: for every path, start and present end value with `start ≥ end`,
`get_range` returns the `Range` validation error without handing any
command to `send_request` — no network request is issued. -/
theorem getRange_rejects_invalid_range (path : String) (start e : Nat) (h : start ≥ e) :
    getRange path start (some e) = Except.error (S3Err.range "start must be < than end") := by
  simp [getRange, h]

/-- Witness for C8 at `path = "obj"`, `start = 5`, `end = 3`. -/
theorem getRange_rejects_invalid_range_witness :
    5 ≥ 3 ∧ getRange "obj" 5 (some 3) =
      Except.error (S3Err.range "start must be < than end") :=
  ⟨by decide, getRange_rejects_invalid_range "obj" 5 3 (by decide)⟩

/-! ## Claim C10 -/

/-- C10: `get_range` with an absent end is never rejected client-side,
whatever `start` is; the issued request's `Range` header is exactly
`bytes={start}-`, while a present end yields `bytes={start}-{end}`. -/
theorem getRange_none_never_rejected (path : String) (start : Nat) :
    getRange path start none = Except.ok (Command.getObjectRange start none, path) ∧
    (∀ hs : Headers,
      hGet (cmdHeaders2 (Command.getObjectRange start none) hs) "range" =
        some ("bytes=" ++ toString start ++ "-")) ∧
    (∀ (e : Nat) (hs : Headers),
      hGet (cmdHeaders2 (Command.getObjectRange start (some e)) hs) "range" =
        some ("bytes=" ++ toString start ++ "-" ++ toString e)) := by
  refine ⟨rfl, fun hs => ?_, fun e hs => ?_⟩
  · exact hGet_hInsert _ "range" _
  · exact hGet_hInsert _ "range" _

/-! ## Claim C9 -/

/-- C9: with `list_objects_v2` disabled, `list_page` builds the legacy v1
command whose single `marker` field is `std::cmp::max` of continuation-token
and start-after — the lexically greater string, an absent value comparing
below any present one — and `build_url` sends exactly that derived marker as
the `marker` query parameter (omitting it when both are absent). -/
theorem listPage_v1_marker (pfx : String) (delimiter : Option String)
    (ct sa : Option String) (maxKeys : Option Nat) :
    listPageCommand false pfx delimiter ct sa maxKeys =
      Command.listObjects pfx delimiter (optStrMax ct sa) maxKeys ∧
    (∀ x y, optStrMax (some x) (some y) =
      some (if lexLe (asBytes x) (asBytes y) then y else x)) ∧
    optStrMax none sa = sa ∧ optStrMax ct none = ct ∧
    (∀ m, optStrMax ct sa = some m →
      ("marker", m) ∈ buildUrlQueryPairs (listPageCommand false pfx delimiter ct sa maxKeys)) ∧
    (optStrMax ct sa = none →
      ∀ v, ("marker", v) ∉ buildUrlQueryPairs (listPageCommand false pfx delimiter ct sa maxKeys)) := by
  refine ⟨by simp [listPageCommand], fun x y => by by_cases hxy : lexLe (asBytes x) (asBytes y) = true <;> simp [optStrMax, hxy], rfl, by cases ct <;> rfl,
    fun m hm => ?_, fun hm v => ?_⟩
  · cases delimiter <;> cases maxKeys <;>
      simp [listPageCommand, buildUrlQueryPairs, hm]
  · cases delimiter <;> cases maxKeys <;>
      simp [listPageCommand, buildUrlQueryPairs, hm]

/-- Witness for C9: `ct = some "a"`, `sa = some "b"` derives marker `"b"`
and sends it. -/
theorem listPage_v1_marker_witness :
    optStrMax (some "a") (some "b") = some "b" ∧
    ("marker", "b") ∈ buildUrlQueryPairs
      (listPageCommand false "p" none (some "a") (some "b") none) :=
  ⟨by decide,
    (listPage_v1_marker "p" none (some "a") (some "b") none).2.2.2.2.1 "b" (by decide)⟩

/-! ## Claim C3 -/

set_option maxRecDepth 100000 in
/-- C3: `signing_key` is the four-step HMAC-SHA256 chain
`HMAC(HMAC(HMAC(HMAC("AWS4"+secret, short-date), region), "s3"),
"aws4_request")`, and on the AWS-published vector (secret
`wJalrXUtnFEMI/K7MDENG+bPxRfiCYEXAMPLEKEY`, date 2015-08-30, region
us-east-1) the derived key's hex encoding equals the documented value. -/
theorem signingKey_chain_and_vector :
    (∀ shortDate secret region : String,
      signingKey shortDate secret region =
        hmacSha256 (hmacSha256 (hmacSha256 (hmacSha256
          (asBytes ("AWS4" ++ secret)) (asBytes shortDate)) (asBytes region))
          (asBytes "s3")) (asBytes "aws4_request")) ∧
    hexStr (signingKey "20150830" "wJalrXUtnFEMI/K7MDENG+bPxRfiCYEXAMPLEKEY" "us-east-1") =
      "32f78051dcde24c552811d654f4a769112bb834b03975cdd6b1fd7d16248c269" :=
  ⟨fun _ _ _ => rfl, by decide⟩

/-! ## Claim C1 -/

/-- C1 counterexample: for the `UploadPart` variant with one content byte,
`Command::sha256` is the empty-payload constant while `send_request`
transmits the content — the hash does not equal the SHA-256 of the
transmitted body, contradicting the claim for the `UploadPart` case. -/
theorem payloadHash_uploadPart_counterexample :
    Command.sha256 (Command.uploadPart 1 [0] "uid") ≠
      hexStr (sha256Bytes (Command.sendBody (Command.uploadPart 1 [0] "uid"))) := by
  decide

/-- C1 amended: for every `Command` other than `UploadPart`, the payload
hash equals the SHA-256 of the bytes `send_request` transmits —
`sha256(content)` for `PutObject`, `sha256(tags)` for `PutObjectTagging`,
`sha256` of the XML manifest for `CompleteMultipartUpload`, and the
empty-string SHA-256 constant for every bodiless variant; `UploadPart`
(dead code: part uploads go through `PutObject` with multipart data) always
uses the empty-payload constant regardless of its content. -/
theorem payloadHash_matches_sent_body_amended (c : Command)
    (h : c.isUploadPart = false) :
    c.sha256 = hexStr (sha256Bytes c.sendBody) := by
  cases c
  case uploadPart pn content uid => exact absurd h (by simp [Command.isUploadPart])
  case putObject content hs mp => rfl
  case putObjectTagging tags => rfl
  case completeMultipartUpload uid data => rfl
  all_goals exact emptyShaEq

/-- Witness for amended C1 at the bodiless `GetObject` command. -/
theorem payloadHash_matches_sent_body_amended_witness :
    Command.isUploadPart Command.getObject = false ∧
    Command.sha256 Command.getObject =
      hexStr (sha256Bytes (Command.sendBody Command.getObject)) :=
  ⟨rfl, payloadHash_matches_sent_body_amended Command.getObject rfl⟩

/-! ## Writer-loop lemmas for C2 and C4 -/

theorem putPartTrace_count_abort (l : List (List Nat)) :
    ∀ pn, (putPartTrace pn l).count Req.abort = 0 := by
  induction l with
  | nil => intro pn; rfl
  | cons c rest ih => intro pn; simp [putPartTrace, List.count_cons, ih]

theorem putPartTrace_no_complete (l : List (List Nat)) :
    ∀ pn ps, Req.complete ps ∉ putPartTrace pn l := by
  induction l with
  | nil => intro pn ps h; simp [putPartTrace] at h
  | cons c rest ih =>
    intro pn ps h
    simp only [putPartTrace, List.mem_cons] at h
    rcases h with h | h
    · exact Req.noConfusion h
    · exact ih (pn + 1) ps h

theorem putPartTrace_length (l : List (List Nat)) :
    ∀ pn, (putPartTrace pn l).length = l.length := by
  induction l with
  | nil => intro pn; rfl
  | cons c rest ih => intro pn; simp [putPartTrace, ih]

/-- Split a `PartOk` assumption over a cons. -/
theorem partOk_cons {partRes : Nat → List Nat → Except S3Err PartResp} {pn : Nat}
    {c : List Nat} {rest : List (List Nat)} (h : PartOk partRes pn (c :: rest)) :
    (∃ t, partRes (pn + 1) c = Except.ok ⟨some t⟩) ∧ PartOk partRes (pn + 1) rest := by
  constructor
  · simpa using h 0 c rfl
  · intro j c' hj
    have hx := h (j + 1) c' (by simpa using hj)
    have harith : pn + (j + 1) + 1 = pn + 1 + j + 1 := by omega
    rwa [harith] at hx

/-- When every part succeeds with an etag, the loop returns all etags in
upload order and the trace is exactly the consecutive `UploadPart`
requests. -/
theorem uploadLoop_all_ok (partRes : Nat → List Nat → Except S3Err PartResp)
    (abortRes : Except S3Err Unit) :
    ∀ (chunks : List (List Nat)) (pn : Nat), PartOk partRes pn chunks →
    ∃ etags, uploadLoop partRes abortRes pn chunks = (Except.ok etags, putPartTrace pn chunks) ∧
      etags.length = chunks.length := by
  intro chunks
  induction chunks with
  | nil => exact fun pn _ => ⟨[], rfl, rfl⟩
  | cons c rest ih =>
    intro pn h
    obtain ⟨⟨t, ht⟩, hrest⟩ := partOk_cons h
    obtain ⟨etags, heq, hlen⟩ := ih (pn + 1) hrest
    refine ⟨t :: etags, ?_, by simp [hlen]⟩
    simp [uploadLoop, ht, heq, putPartTrace, Except.map]

/-- When the parts before a failing one succeed, the loop uploads them,
uploads the failing part, issues exactly one abort, and returns the original
error — unless the abort itself fails, in which case the abort's error is
returned (the `?` on `abort_upload` in src/bucket.rs:410). -/
theorem uploadLoop_first_fail (partRes : Nat → List Nat → Except S3Err PartResp)
    (abortRes : Except S3Err Unit) :
    ∀ (pre : List (List Nat)) (pn : Nat) (c : List Nat) (post : List (List Nat)) (e : S3Err),
    PartOk partRes pn pre →
    partRes (pn + pre.length + 1) c = Except.error e →
    uploadLoop partRes abortRes pn (pre ++ c :: post) =
      ((match abortRes with
        | Except.ok _ => Except.error e
        | Except.error ae => Except.error ae),
       putPartTrace pn pre ++ [Req.putPart (pn + pre.length + 1) c, Req.abort]) := by
  intro pre
  induction pre with
  | nil =>
    intro pn c post e _ hfail
    simp only [List.length_nil, Nat.add_zero] at hfail
    cases habort : abortRes <;>
      simp [uploadLoop, hfail, habort, putPartTrace]
  | cons c0 pre' ih =>
    intro pn c post e hok hfail
    obtain ⟨⟨t, ht⟩, hrest⟩ := partOk_cons hok
    have harith : pn + (c0 :: pre').length + 1 = pn + 1 + pre'.length + 1 := by
      simp; omega
    rw [harith] at hfail
    have hx := ih (pn + 1) c post e hrest hfail
    cases abortRes
    all_goals simp [uploadLoop, ht, hx, putPartTrace, Except.map]
    all_goals omega

/-! ## Claim C2 -/

/-- C2 counterexample: when the first part upload fails and the abort call
fails too, the writer propagates the abort failure, not the original
part-upload error, contradicting the claim's "propagated to the caller as
the original part-upload error". -/
theorem partFail_abort_error_counterexample :
    (runWriter (Except.ok ⟨"k", "u"⟩)
        (fun _ _ => Except.error (S3Err.httpFailWithBody 500 "part failed"))
        (Except.error (S3Err.httpFailWithBody 403 "abort failed"))
        (fun _ => Except.ok 200) [0] []).1 =
      Except.error (S3Err.httpFailWithBody 403 "abort failed") ∧
    S3Err.httpFailWithBody 403 "abort failed" ≠ S3Err.httpFailWithBody 500 "part failed" ∧
    (runWriter (Except.ok ⟨"k", "u"⟩)
        (fun _ _ => Except.error (S3Err.httpFailWithBody 500 "part failed"))
        (Except.error (S3Err.httpFailWithBody 403 "abort failed"))
        (fun _ => Except.ok 200) [0] []).2 =
      [Req.initiate, Req.putPart 1 [0], Req.abort] :=
  ⟨rfl, by decide, rfl⟩

/-- The writer's request trace and result when the part loop fails. -/
theorem runWriter_fail_shape (initOk : InitOk)
    (partRes : Nat → List Nat → Except S3Err PartResp) (abortRes : Except S3Err Unit)
    (completeRes : List (Nat × String) → Except S3Err Nat)
    (firstChunk : List Nat) (msgs : List (Option (List Nat)))
    (pre : List (List Nat)) (c : List Nat) (post : List (List Nat)) (err : S3Err)
    (hloop : uploadLoop partRes abortRes 0 (pre ++ c :: post) =
      (Except.error err,
       putPartTrace 0 pre ++ [Req.putPart (0 + pre.length + 1) c, Req.abort]))
    (hsplit : firstChunk :: recvChunks msgs = pre ++ c :: post) :
    runWriter (Except.ok initOk) partRes abortRes completeRes firstChunk msgs =
      (Except.error err,
       Req.initiate :: (putPartTrace 0 pre ++
         [Req.putPart (0 + pre.length + 1) c, Req.abort])) := by
  simp [runWriter, hsplit, hloop]

/-- The failure trace contains exactly one abort and no complete. -/
theorem failTrace_counts (pre : List (List Nat)) (k : Nat) (c : List Nat) :
    (Req.initiate :: (putPartTrace 0 pre ++ [Req.putPart k c, Req.abort])).count
        Req.abort = 1 ∧
    ∀ ps, Req.complete ps ∉
      Req.initiate :: (putPartTrace 0 pre ++ [Req.putPart k c, Req.abort]) := by
  constructor
  · simp [List.count_cons, List.count_append, putPartTrace_count_abort]
  · intro ps hmem
    simp only [List.mem_cons, List.mem_append] at hmem
    rcases hmem with h | h | h
    · exact Req.noConfusion h
    · exact putPartTrace_no_complete pre 0 ps h
    · simp at h

/-- C2 amended: whenever some `multipart_request` fails during a true
multipart upload (all parts before it succeeded with etags), exactly one
`AbortMultipartUpload` request is issued for the session, no
`CompleteMultipartUpload` request is issued, and the failure propagated to
the caller is the original part-upload error when the abort succeeds — but
the abort's own error when the abort also fails. -/
theorem partFail_aborts_once_amended (initOk : InitOk)
    (partRes : Nat → List Nat → Except S3Err PartResp) (abortRes : Except S3Err Unit)
    (completeRes : List (Nat × String) → Except S3Err Nat)
    (firstChunk : List Nat) (msgs : List (Option (List Nat)))
    (pre : List (List Nat)) (c : List Nat) (post : List (List Nat)) (e : S3Err)
    (hsplit : firstChunk :: recvChunks msgs = pre ++ c :: post)
    (hok : PartOk partRes 0 pre)
    (hfail : partRes (pre.length + 1) c = Except.error e) :
    (runWriter (Except.ok initOk) partRes abortRes completeRes firstChunk msgs).2.count
        Req.abort = 1 ∧
    (∀ ps, Req.complete ps ∉
      (runWriter (Except.ok initOk) partRes abortRes completeRes firstChunk msgs).2) ∧
    (runWriter (Except.ok initOk) partRes abortRes completeRes firstChunk msgs).1 =
      (match abortRes with
        | Except.ok _ => Except.error e
        | Except.error ae => Except.error ae) := by
  have hfail0 : partRes (0 + pre.length + 1) c = Except.error e := by
    simpa using hfail
  have hloop := uploadLoop_first_fail partRes abortRes pre 0 c post e hok hfail0
  revert hloop
  cases abortRes with
  | ok u =>
    intro hloop
    have hrun := runWriter_fail_shape initOk partRes (Except.ok u) completeRes
      firstChunk msgs pre c post e hloop hsplit
    exact ⟨by rw [hrun]; exact (failTrace_counts pre _ c).1,
      fun ps h => (failTrace_counts pre _ c).2 ps (by rw [hrun] at h; exact h),
      by rw [hrun]⟩
  | error ae =>
    intro hloop
    have hrun := runWriter_fail_shape initOk partRes (Except.error ae) completeRes
      firstChunk msgs pre c post ae hloop hsplit
    exact ⟨by rw [hrun]; exact (failTrace_counts pre _ c).1,
      fun ps h => (failTrace_counts pre _ c).2 ps (by rw [hrun] at h; exact h),
      by rw [hrun]⟩

/-- Witness for amended C2: part 1 fails, abort succeeds — one abort. -/
theorem partFail_aborts_once_amended_witness :
    (([0] : List Nat) :: recvChunks [] = [] ++ [0] :: []) ∧
    (runWriter (Except.ok ⟨"k", "u"⟩)
        (fun _ _ => Except.error (S3Err.httpFailWithBody 500 "x"))
        (Except.ok ()) (fun _ => Except.ok 200) [0] []).2.count Req.abort = 1 := by
  refine ⟨rfl, ?_⟩
  exact (partFail_aborts_once_amended ⟨"k", "u"⟩ _ _ _ [0] [] [] [0] []
    (S3Err.httpFailWithBody 500 "x") rfl (fun j c h => by simp at h) rfl).1

/-! ## Claim C4 -/

/-- The manifest numbering helper: enumerating from `n` and shifting by one
gives consecutive part numbers. -/
theorem enumFrom_succ_map_fst (l : List String) :
    ∀ n, ((l.enumFrom n).map (fun p => (p.1 + 1, p.2))).map Prod.fst =
      List.range' (n + 1) l.length := by
  induction l with
  | nil => intro n; rfl
  | cons c rest ih =>
    intro n
    simp only [List.enumFrom, List.map_cons, List.length_cons, List.range'_succ]
    exact congrArg _ (ih (n + 1))

/-- C4: when all `N ≥ 1` part uploads of a true multipart upload succeed,
the writer issues `CompleteMultipartUpload` whose manifest has exactly `N`
parts numbered contiguously `1..N` in ascending upload order, with one ETag
per part sent. -/
theorem completeManifest_contiguous (initOk : InitOk)
    (partRes : Nat → List Nat → Except S3Err PartResp) (abortRes : Except S3Err Unit)
    (completeRes : List (Nat × String) → Except S3Err Nat)
    (firstChunk : List Nat) (msgs : List (Option (List Nat)))
    (hok : PartOk partRes 0 (firstChunk :: recvChunks msgs)) :
    ∃ parts : List (Nat × String),
      (runWriter (Except.ok initOk) partRes abortRes completeRes firstChunk msgs).2 =
        Req.initiate ::
          (putPartTrace 0 (firstChunk :: recvChunks msgs) ++ [Req.complete parts]) ∧
      parts.map Prod.fst = List.range' 1 (firstChunk :: recvChunks msgs).length ∧
      parts.length = (firstChunk :: recvChunks msgs).length ∧
      (putPartTrace 0 (firstChunk :: recvChunks msgs)).length =
        (firstChunk :: recvChunks msgs).length ∧
      1 ≤ (firstChunk :: recvChunks msgs).length := by
  obtain ⟨etags, heq, hlen⟩ :=
    uploadLoop_all_ok partRes abortRes (firstChunk :: recvChunks msgs) 0 hok
  refine ⟨etags.enum.map (fun p => (p.1 + 1, p.2)), ?_, ?_, ?_, ?_, ?_⟩
  · cases hcomp : completeRes (etags.enum.map (fun p => (p.1 + 1, p.2))) <;>
      simp [runWriter, heq, hcomp]
  · rw [show etags.enum = etags.enumFrom 0 from rfl, enumFrom_succ_map_fst, hlen]
  · simp [hlen]
  · exact putPartTrace_length _ 0
  · simp

/-- Witness for C4 with two chunks, both succeeding. -/
theorem completeManifest_contiguous_witness :
    PartOk (fun _ _ => Except.ok ⟨some "e"⟩) 0 (([0] : List Nat) :: recvChunks [some [1], none]) ∧
    ∃ parts : List (Nat × String),
      (runWriter (Except.ok ⟨"k", "u"⟩) (fun _ _ => Except.ok ⟨some "e"⟩)
          (Except.ok ()) (fun _ => Except.ok 200) [0] [some [1], none]).2 =
        Req.initiate ::
          (putPartTrace 0 (([0] : List Nat) :: recvChunks [some [1], none]) ++
            [Req.complete parts]) ∧
      parts.map Prod.fst =
        List.range' 1 (([0] : List Nat) :: recvChunks [some [1], none]).length ∧
      parts.length = (([0] : List Nat) :: recvChunks [some [1], none]).length ∧
      (putPartTrace 0 (([0] : List Nat) :: recvChunks [some [1], none])).length =
        (([0] : List Nat) :: recvChunks [some [1], none]).length ∧
      1 ≤ (([0] : List Nat) :: recvChunks [some [1], none]).length :=
  ⟨fun j c _ => ⟨"e", rfl⟩,
    completeManifest_contiguous ⟨"k", "u"⟩ _ _ _ [0] [some [1], none]
      (fun j c _ => ⟨"e", rfl⟩)⟩

/-! ## Claim C5 -/

/-- The channel never holds more than its capacity of 2 chunks. -/
theorem pipe_queue_le_two (n : Nat) (s : PipeState) (h : PipeReach (pipeInit n) s) :
    s.queue ≤ 2 := by
  induction h with
  | refl => exact Nat.zero_le 2
  | tail hr hstep ih =>
    cases hstep with
    | read => exact ih
    | send hq => exact hq
    | recv => dsimp only at ih ⊢; omega
    | copyBody => exact ih
    | finishUpload => exact ih

/-- The uploader never holds more than its chunk and the one body copy
`send_request` makes of it. -/
theorem pipe_uploader_le_two (n : Nat) (s : PipeState) (h : PipeReach (pipeInit n) s) :
    s.uploader ≤ 2 := by
  induction h with
  | refl => exact Nat.le_succ 1
  | tail hr hstep ih =>
    cases hstep with
    | read => exact ih
    | send hq => exact ih
    | recv => exact Nat.le_succ 1
    | copyBody => exact Nat.le_refl 2
    | finishUpload => exact Nat.zero_le 2

/-- C5 counterexample: with three chunks still to read, the scheduling
"enter send_request for part 1 (payload copied by `content.to_vec()`);
read chunk 2; send; read chunk 3; send; read chunk 4" reaches a state
holding 5 chunk-sized buffers — 5×CHUNK_SIZE bytes, exceeding the claimed
2×CHUNK_SIZE bound. -/
theorem pipeline_exceeds_two_chunks_counterexample :
    PipeReach (pipeInit 3) ⟨0, true, 2, 2⟩ ∧
    heldBytes ⟨0, true, 2, 2⟩ = 5 * CHUNK_SIZE ∧
    ¬ heldBytes ⟨0, true, 2, 2⟩ ≤ 2 * CHUNK_SIZE := by
  refine ⟨?_, by decide, by decide⟩
  exact Relation.ReflTransGen.head PipeStep.copyBody
    (Relation.ReflTransGen.head PipeStep.read
      (Relation.ReflTransGen.head (PipeStep.send (by decide))
        (Relation.ReflTransGen.head PipeStep.read
          (Relation.ReflTransGen.head (PipeStep.send (by decide))
            (Relation.ReflTransGen.head PipeStep.read Relation.ReflTransGen.refl)))))

/-- C5 amended: during any execution of the `put_stream_with` pipeline, at
every instant at most 5×CHUNK_SIZE bytes of chunk payload are held in
memory — one buffer being read, up to two in the capacity-2 channel, and
the chunk being uploaded together with the request-body copy `send_request`
makes of it — independent of the total size of the streamed object. -/
theorem pipeline_bounded_memory_amended (n : Nat) (s : PipeState)
    (h : PipeReach (pipeInit n) s) :
    heldBytes s ≤ 5 * CHUNK_SIZE := by
  have hq := pipe_queue_le_two n s h
  have hu := pipe_uploader_le_two n s h
  have hchunks : heldChunks s ≤ 5 := by
    unfold heldChunks
    cases s.readerHolds <;> simp <;> omega
  calc heldBytes s = heldChunks s * CHUNK_SIZE := rfl
    _ ≤ 5 * CHUNK_SIZE := Nat.mul_le_mul_right CHUNK_SIZE hchunks

/-- Witness for amended C5 at the initial state of a 5-chunk stream. -/
theorem pipeline_bounded_memory_amended_witness :
    heldBytes (pipeInit 4) ≤ 5 * CHUNK_SIZE :=
  pipeline_bounded_memory_amended 4 (pipeInit 4) Relation.ReflTransGen.refl

/-! ## Claim C7 -/

theorem hHas_cmdHeaders1_date (cmd : Command) (hs : Headers) :
    hHas (cmdHeaders1 cmd hs) "date" ↔ hHas hs "date" := by
  cases cmd <;> simp only [cmdHeaders1] <;> (try split) <;> simp [hHas_hInsert]

theorem hHas_cmdHeaders2_date (cmd : Command) (hs : Headers) :
    hHas (cmdHeaders2 cmd hs) "date" ↔ hHas hs "date" := by
  cases cmd <;> simp [cmdHeaders2, hHas_hInsert]

theorem hHas_cmdHeaders2_mono (cmd : Command) (hs : Headers) (k : String)
    (h : hHas hs k) : hHas (cmdHeaders2 cmd hs) k := by
  cases cmd <;> simp [cmdHeaders2, hHas_hInsert, h]

/-- A caller-free header set stays free of `date` all through the signing
preparation. -/
theorem preAuth_no_date (cfg : BucketCfg) (cmd : Command) (nowLong : String)
    (h : ¬ hHas cmd.takeHeaders "date") :
    ¬ hHas (preAuthHeaders cfg cmd nowLong) "date" := by
  unfold preAuthHeaders
  rw [hHas_cmdHeaders2_date]
  simp [hHas_hInsert, hHas_cmdHeaders1_date, h]

theorem preAuth_has_amz_date (cfg : BucketCfg) (cmd : Command) (nowLong : String) :
    hHas (preAuthHeaders cfg cmd nowLong) "x-amz-date" := by
  unfold preAuthHeaders
  apply hHas_cmdHeaders2_mono
  simp [hHas_hInsert]

/-- C7 counterexample: a caller-supplied `date` extra header (here on
`InitiateMultipartUpload`, whose extra headers `build_headers` consumes)
lands in the header set that is signed, so the signed-header list does
include the name `date` — the claim's "never" fails. -/
theorem dateHeader_signed_counterexample :
    hHas (preAuthHeaders ⟨"b", "example.com", "r", "id", "sec", true⟩
      (Command.initiateMultipartUpload [("date", "Tue, 01 Jan 2030 00:00:00 GMT")])
      "20250101T000000Z") "date" ∧
    signedHeaderString (preAuthHeaders ⟨"b", "example.com", "r", "id", "sec", true⟩
      (Command.initiateMultipartUpload [("date", "Tue, 01 Jan 2030 00:00:00 GMT")])
      "20250101T000000Z") =
      "content-type;date;host;x-amz-content-sha256;x-amz-date" := by
  constructor
  · decide
  · rfl

/-- C7 amended: provided the caller-supplied extra headers contain no
`date` entry, the RFC 2822 `Date` header enters the outgoing map only after
the `Authorization` header is computed: the signed header set contains no
`date` name, the outgoing `date` value is the RFC 2822 timestamp inserted
last, the `Authorization` value is independent of the `Date` value, and
`x-amz-date` is part of the signed set. -/
theorem dateHeader_after_signing_amended (cfg : BucketCfg) (cmd : Command)
    (path query : List Nat) (nowLong nowShort rfc rfc' : String)
    (hdate : ¬ hHas cmd.takeHeaders "date") :
    ¬ hHas (preAuthHeaders cfg cmd nowLong) "date" ∧
    hGet (buildHeaders cfg cmd path query nowLong nowShort rfc) "date" = some rfc ∧
    hGet (buildHeaders cfg cmd path query nowLong nowShort rfc) "authorization" =
      hGet (buildHeaders cfg cmd path query nowLong nowShort rfc') "authorization" ∧
    hHas (preAuthHeaders cfg cmd nowLong) "x-amz-date" := by
  refine ⟨preAuth_no_date cfg cmd nowLong hdate, ?_, ?_, preAuth_has_amz_date cfg cmd nowLong⟩
  · exact hGet_hInsert _ "date" rfc
  · simp only [buildHeaders]
    rw [hGet_hInsert_ne _ "date" rfc "authorization" (by decide),
      hGet_hInsert_ne _ "date" rfc' "authorization" (by decide)]

/-- Witness for amended C7 at `GetObject` (no extra headers). -/
theorem dateHeader_after_signing_amended_witness :
    ¬ hHas (Command.takeHeaders Command.getObject) "date" ∧
    ¬ hHas (preAuthHeaders ⟨"b", "example.com", "r", "id", "sec", true⟩
      Command.getObject "20250101T000000Z") "date" :=
  ⟨by decide,
    (dateHeader_after_signing_amended ⟨"b", "example.com", "r", "id", "sec", true⟩
      Command.getObject [] [] "20250101T000000Z" "20250101" "R" "R2" (by decide)).1⟩

/-! ## Order lemmas for the canonical query sort (C6) -/

theorem lexLe_total : ∀ a b : List Nat, lexLe a b = true ∨ lexLe b a = true := by
  intro a
  induction a with
  | nil => intro b; left; rfl
  | cons x xs ih =>
    intro b
    cases b with
    | nil => right; rfl
    | cons y ys =>
      rcases Nat.lt_trichotomy x y with h | h | h
      · left; simp [lexLe, h]
      · subst h
        rcases ih ys with h2 | h2
        · left; simp [lexLe, Nat.lt_irrefl, h2]
        · right; simp [lexLe, Nat.lt_irrefl, h2]
      · right; simp [lexLe, h]

theorem lexLe_antisymm : ∀ a b : List Nat,
    lexLe a b = true → lexLe b a = true → a = b := by
  intro a
  induction a with
  | nil =>
    intro b h1 h2
    cases b with
    | nil => rfl
    | cons y ys => simp [lexLe] at h2
  | cons x xs ih =>
    intro b h1 h2
    cases b with
    | nil => simp [lexLe] at h1
    | cons y ys =>
      rcases Nat.lt_trichotomy x y with h | h | h
      · simp [lexLe, h, Nat.lt_asymm h] at h2
      · subst h
        have := ih ys (by simpa [lexLe, Nat.lt_irrefl] using h1)
          (by simpa [lexLe, Nat.lt_irrefl] using h2)
        rw [this]
      · simp [lexLe, h, Nat.lt_asymm h] at h1

theorem lexLe_trans : ∀ a b c : List Nat,
    lexLe a b = true → lexLe b c = true → lexLe a c = true := by
  intro a
  induction a with
  | nil => intro b c _ _; rfl
  | cons x xs ih =>
    intro b c h1 h2
    cases b with
    | nil => simp [lexLe] at h1
    | cons y ys =>
      cases c with
      | nil => simp [lexLe] at h2
      | cons z zs =>
        rcases Nat.lt_trichotomy x y with hxy | hxy | hxy
        · rcases Nat.lt_trichotomy y z with hyz | hyz | hyz
          · simp [lexLe, Nat.lt_trans hxy hyz]
          · subst hyz; simp [lexLe, hxy]
          · simp [lexLe, hyz, Nat.lt_asymm hyz] at h2
        · subst hxy
          rcases Nat.lt_trichotomy x z with hxz | hxz | hxz
          · simp [lexLe, hxz]
          · subst hxz
            simp only [lexLe, Nat.lt_irrefl, if_neg (Nat.lt_irrefl x)] at h1 h2 ⊢
            simp at h1 h2
            exact ih ys zs h1 h2
          · simp [lexLe, hxz, Nat.lt_asymm hxz] at h2
        · simp [lexLe, hxy, Nat.lt_asymm hxy] at h1

instance : IsTotal (List Nat × List Nat) pairLeR := by
  constructor
  intro p q
  unfold pairLeR pairLe
  by_cases h : p.1 = q.1
  · simp [h]
    exact lexLe_total p.2 q.2
  · have h' : ¬(q.1 = p.1) := fun e => h e.symm
    simp [h, h']
    exact lexLe_total p.1 q.1

instance : IsTrans (List Nat × List Nat) pairLeR := by
  constructor
  intro p q r h1 h2
  unfold pairLeR pairLe at h1 h2 ⊢
  by_cases hpq : p.1 = q.1 <;> by_cases hqr : q.1 = r.1
  · simp only [hpq, hqr, if_pos rfl] at h1 h2
    simp only [hpq.trans hqr, if_pos rfl]
    exact lexLe_trans _ _ _ h1 h2
  · simp only [hpq, if_pos rfl] at h1
    simp only [if_neg hqr] at h2
    have hpr : ¬(p.1 = r.1) := fun e => hqr (hpq.symm.trans e)
    simp only [if_neg hpr]
    rw [hpq]
    exact h2
  · simp only [if_neg hpq] at h1
    simp only [hqr] at h1
    have hpr : ¬(p.1 = r.1) := fun e => hpq (e.trans hqr.symm)
    simp only [if_neg hpr]
    exact h1
  · simp only [if_neg hpq] at h1
    simp only [if_neg hqr] at h2
    by_cases hpr : p.1 = r.1
    · exact absurd (lexLe_antisymm _ _ h1 (hpr ▸ h2)) hpq
    · simp only [if_neg hpr]
      exact lexLe_trans _ _ _ h1 h2

instance : IsAntisymm (List Nat × List Nat) pairLeR := by
  constructor
  intro p q h1 h2
  unfold pairLeR pairLe at h1 h2
  by_cases h : p.1 = q.1
  · simp only [h, if_pos rfl] at h1
    have h' : ¬(q.1 = p.1) → False := fun e => e h.symm
    simp only [show q.1 = p.1 from h.symm, if_pos rfl] at h2
    have := lexLe_antisymm _ _ h1 h2
    exact Prod.ext h this
  · have h' : ¬(q.1 = p.1) := fun e => h e.symm
    simp only [if_neg h] at h1
    simp only [if_neg h'] at h2
    exact absurd (lexLe_antisymm _ _ h1 h2) h

/-- Two permuted pair lists have the same sorted form (the order is total,
transitive and antisymmetric). -/
theorem sort_perm_eq {l₁ l₂ : List (List Nat × List Nat)} (h : List.Perm l₁ l₂) :
    List.insertionSort pairLeR l₁ = List.insertionSort pairLeR l₂ :=
  List.eq_of_perm_of_sorted
    ((List.perm_insertionSort _ _).trans (h.trans (List.perm_insertionSort _ _).symm))
    (List.sorted_insertionSort _ _) (List.sorted_insertionSort _ _)

/-! ## Percent-coding roundtrip lemmas (C6) -/

theorem hexUpper_isHex : ∀ n, n < 16 → isHexDigitB (hexUpper n) = true := by decide

set_option maxRecDepth 10000 in
theorem hexRoundtrip : ∀ b, b < 256 →
    hexDigitVal (hexUpper (b / 16 % 16)) * 16 + hexDigitVal (hexUpper (b % 16)) = b := by
  decide

theorem hexDigitVal_lt (b : Nat) (h : isHexDigitB b = true) : hexDigitVal b < 16 := by
  simp only [isHexDigitB, Bool.or_eq_true, Bool.and_eq_true, decide_eq_true_eq] at h
  unfold hexDigitVal
  split <;> try split
  all_goals omega

/-- Decoding a non-`%` byte just passes it through. -/
theorem pctDecode_cons_ne37 (b : Nat) (l : List Nat) (h : ¬ b = 37) :
    pctDecode (b :: l) = b :: pctDecode l := by
  have hb : (b == 37) = false := by simpa using h
  cases l with
  | nil => rfl
  | cons x xs =>
    cases xs with
    | nil => rfl
    | cons y rest => simp [pctDecode, hb]

/-- Percent-decoding inverts percent-encoding on byte strings, for any
encode set that covers `%` itself. -/
theorem pctDecode_pctEncode (inSet : Nat → Bool) (h37 : inSet 37 = true) :
    ∀ l : List Nat, (∀ b ∈ l, b < 256) → pctDecode (pctEncode inSet l) = l := by
  intro l
  induction l with
  | nil => intro _; rfl
  | cons b rest ih =>
    intro hb
    have hb256 : b < 256 := hb b (by simp)
    have hrest : ∀ x ∈ rest, x < 256 := fun x hx => hb x (by simp [hx])
    by_cases henc : (128 ≤ b || inSet b) = true
    · have hshape : pctEncode inSet (b :: rest) =
          37 :: hexUpper (b / 16 % 16) :: hexUpper (b % 16) :: pctEncode inSet rest := by
        simp [pctEncode, pctEncodeByte, henc]
      rw [hshape]
      simp [pctDecode, hexUpper_isHex (b / 16 % 16) (by omega),
        hexUpper_isHex (b % 16) (by omega), hexRoundtrip b hb256, ih hrest]
    · have hbne : ¬ b = 37 := fun e => by
        rw [e, h37] at henc
        simp at henc
      have hshape : pctEncode inSet (b :: rest) = b :: pctEncode inSet rest := by
        simp [pctEncode, pctEncodeByte, henc]
      rw [hshape, pctDecode_cons_ne37 b _ hbne, ih hrest]

/-- Percent-decoding preserves the byte bound. -/
theorem pctDecode_lt256 : ∀ l : List Nat, (∀ b ∈ l, b < 256) → ∀ x ∈ pctDecode l, x < 256
  | [], _, x, hx => by simp [pctDecode] at hx
  | [b], hb, x, hx => by
    rw [show pctDecode [b] = [b] from rfl] at hx
    simp at hx
    exact hx ▸ hb b (by simp)
  | [b, c], hb, x, hx => by
    rw [show pctDecode [b, c] = [b, c] from rfl] at hx
    simp at hx
    rcases hx with rfl | rfl
    · exact hb x (by simp)
    · exact hb x (by simp)
  | b :: h :: lo :: rest, hb, x, hx => by
    by_cases hcond : (b == 37 && (isHexDigitB h && isHexDigitB lo)) = true
    · rw [show pctDecode (b :: h :: lo :: rest) =
          (hexDigitVal h * 16 + hexDigitVal lo) :: pctDecode rest from by
            simp only [pctDecode]
            split
            · rfl
            · rename_i hn
              rw [Bool.and_assoc] at hn
              exact absurd hcond hn] at hx
      rcases List.mem_cons.mp hx with rfl | hx'
      · simp only [Bool.and_eq_true] at hcond
        have hh := hexDigitVal_lt h hcond.2.1
        have hl := hexDigitVal_lt lo hcond.2.2
        omega
      · exact pctDecode_lt256 rest (fun y hy => hb y (by simp [hy])) x hx'
    · rw [show pctDecode (b :: h :: lo :: rest) = b :: pctDecode (h :: lo :: rest) from by
          simp only [pctDecode, Bool.and_assoc]
          rw [if_neg (by simpa using hcond)]] at hx
      rcases List.mem_cons.mp hx with rfl | hx'
      · exact hb x (by simp)
      · exact pctDecode_lt256 (h :: lo :: rest)
          (fun y hy => hb y (by simp at hy ⊢; tauto)) x hx'

/-- Classification of the bytes a percent-encoder can emit. -/
theorem pctEncode_mem (inSet : Nat → Bool) :
    ∀ l : List Nat, ∀ x ∈ pctEncode inSet l,
      x = 37 ∨ (48 ≤ x ∧ x ≤ 57) ∨ (65 ≤ x ∧ x ≤ 70) ∨ (x < 128 ∧ inSet x = false) := by
  have hex : ∀ n, n < 16 → (48 ≤ hexUpper n ∧ hexUpper n ≤ 57) ∨
      (65 ≤ hexUpper n ∧ hexUpper n ≤ 70) := by decide
  intro l
  induction l with
  | nil => intro x hx; simp [pctEncode] at hx
  | cons b rest ih =>
    intro x hx
    rw [show pctEncode inSet (b :: rest) =
        pctEncodeByte inSet b ++ pctEncode inSet rest from by simp [pctEncode]] at hx
    rcases List.mem_append.mp hx with hx | hx
    · unfold pctEncodeByte at hx
      split at hx
      · simp at hx
        rcases hx with rfl | rfl | rfl
        · exact Or.inl rfl
        · rcases hex (b / 16 % 16) (by omega) with h | h
          · exact Or.inr (Or.inl h)
          · exact Or.inr (Or.inr (Or.inl h))
        · rcases hex (b % 16) (by omega) with h | h
          · exact Or.inr (Or.inl h)
          · exact Or.inr (Or.inr (Or.inl h))
      · simp at hx
        subst hx
        rename_i hcond
        simp only [Bool.or_eq_true, not_or, decide_eq_true_eq] at hcond
        refine Or.inr (Or.inr (Or.inr ⟨?_, ?_⟩))
        · omega
        · simpa using hcond.2
    · exact ih x hx

/-- Bytes emitted when encoding with `FRAGMENT_SLASH` are never `&`, `=`
or `+`. -/
theorem mem_pctEncode_ne (l : List Nat) (x : Nat)
    (hx : x ∈ pctEncode fragmentSlashByte l) : x ≠ 38 ∧ x ≠ 61 ∧ x ≠ 43 := by
  rcases pctEncode_mem fragmentSlashByte l x hx with rfl | h | h | h
  · exact ⟨by decide, by decide, by decide⟩
  · exact ⟨by omega, by omega, by omega⟩
  · exact ⟨by omega, by omega, by omega⟩
  · refine ⟨?_, ?_, ?_⟩ <;> rintro rfl <;> revert h <;> decide

theorem map_id_of_eq {α : Type} (f : α → α) :
    ∀ l : List α, (∀ a ∈ l, f a = a) → l.map f = l := by
  intro l
  induction l with
  | nil => intro _; rfl
  | cons a tl ih =>
    intro h
    simp only [List.map_cons, h a (by simp), ih (fun x hx => h x (by simp [hx]))]

theorem mem_intercalate_of_mem (sep : List Nat) :
    ∀ (ls : List (List Nat)) (l : List Nat), l ∈ ls → ∀ b ∈ l,
      b ∈ List.intercalate sep ls := by
  intro ls
  induction ls with
  | nil => intro l hl; simp at hl
  | cons a tl ih =>
    intro l hl b hb
    cases tl with
    | nil =>
      simp only [List.mem_singleton] at hl
      subst hl
      simpa [List.intercalate] using hb
    | cons a2 tl2 =>
      rw [show List.intercalate sep (a :: a2 :: tl2) =
          a ++ (sep ++ List.intercalate sep (a2 :: tl2)) from by
        simp [List.intercalate]]
      rcases List.mem_cons.mp hl with rfl | hl2
      · exact List.mem_append.mpr (Or.inl hb)
      · exact List.mem_append.mpr (Or.inr (List.mem_append.mpr (Or.inr (ih _ hl2 b hb))))

theorem splitEq_subset : ∀ s : List Nat,
    (∀ x ∈ (splitEq s).1, x ∈ s) ∧ (∀ x ∈ (splitEq s).2, x ∈ s) := by
  intro s
  induction s with
  | nil => exact ⟨fun x hx => by simp [splitEq] at hx, fun x hx => by simp [splitEq] at hx⟩
  | cons b rest ih =>
    by_cases hb : (b == 61) = true
    · refine ⟨fun x hx => ?_, fun x hx => ?_⟩
      · simp [splitEq, hb] at hx
      · simp only [splitEq, hb, if_true] at hx
        exact List.mem_cons_of_mem b hx
    · refine ⟨fun x hx => ?_, fun x hx => ?_⟩
      · simp only [splitEq, hb, Bool.false_eq_true, if_false, List.mem_cons] at hx
        rcases hx with rfl | hx
        · exact List.mem_cons_self x rest
        · exact List.mem_cons_of_mem b (ih.1 x hx)
      · simp only [splitEq, hb, Bool.false_eq_true, if_false] at hx
        exact List.mem_cons_of_mem b (ih.2 x hx)

theorem formDecode_lt256 (s : List Nat) (h : ∀ b ∈ s, b < 256) :
    ∀ x ∈ formDecode s, x < 256 := by
  unfold formDecode
  apply pctDecode_lt256
  intro b hb
  rcases List.mem_map.mp hb with ⟨y, hy, rfl⟩
  by_cases hy43 : (y == 43) = true
  · simp [hy43]
  · simp only [hy43, Bool.false_eq_true, if_false]
    exact h y hy

/-- Decoded query pairs of a byte-valid query are byte-valid. -/
theorem parseQueryPairs_lt256 (q : List Nat) (hq : ∀ b ∈ q, b < 256) :
    ∀ p ∈ parseQueryPairs q, (∀ x ∈ p.1, x < 256) ∧ (∀ x ∈ p.2, x < 256) := by
  intro p hp
  unfold parseQueryPairs at hp
  rcases List.mem_map.mp hp with ⟨seg, hseg, rfl⟩
  have hseg' : seg ∈ q.splitOn 38 := (List.mem_filter.mp hseg).1
  have hsegbytes : ∀ b ∈ seg, b < 256 := by
    intro b hb
    apply hq
    have hmem : b ∈ List.intercalate [38] (q.splitOn 38) :=
      mem_intercalate_of_mem [38] _ seg hseg' b hb
    rwa [List.intercalate_splitOn] at hmem
  unfold parsePair
  exact ⟨formDecode_lt256 _ (fun x hx => hsegbytes x ((splitEq_subset seg).1 x hx)),
    formDecode_lt256 _ (fun x hx => hsegbytes x ((splitEq_subset seg).2 x hx))⟩

theorem splitEq_append (a b : List Nat) (ha : ∀ x ∈ a, ¬ x = 61) :
    splitEq (a ++ 61 :: b) = (a, b) := by
  induction a with
  | nil => simp [splitEq]
  | cons x xs ih =>
    have hx : (x == 61) = false := by simpa using ha x (by simp)
    simp [splitEq, hx, ih (fun y hy => ha y (by simp [hy]))]

/-- `form_urlencoded` decoding inverts `FRAGMENT_SLASH` percent-encoding. -/
theorem formDecode_pctEncode (l : List Nat) (hl : ∀ b ∈ l, b < 256) :
    formDecode (pctEncode fragmentSlashByte l) = l := by
  unfold formDecode
  rw [map_id_of_eq _ _ (fun a ha => by
    have h43 : (a == 43) = false := by simpa using (mem_pctEncode_ne l a ha).2.2
    simp [h43])]
  exact pctDecode_pctEncode fragmentSlashByte (by decide) l hl

/-- Parsing one encoded `k=v` component recovers the decoded pair. -/
theorem parsePair_encPair (p : List Nat × List Nat)
    (hk : ∀ b ∈ p.1, b < 256) (hv : ∀ b ∈ p.2, b < 256) :
    parsePair (encPair p) = p := by
  unfold parsePair encPair
  rw [splitEq_append _ _ (fun x hx => (mem_pctEncode_ne p.1 x hx).2.1)]
  simp only [formDecode_pctEncode _ hk, formDecode_pctEncode _ hv]

theorem not_mem_encPair_38 (p : List Nat × List Nat) : 38 ∉ encPair p := by
  intro h
  rcases List.mem_append.mp h with h | h
  · exact (mem_pctEncode_ne p.1 38 h).1 rfl
  · rcases List.mem_cons.mp h with h | h
    · exact absurd h (by decide)
    · exact (mem_pctEncode_ne p.2 38 h).1 rfl

theorem encPair_not_isEmpty (p : List Nat × List Nat) : (!(encPair p).isEmpty) = true := by
  unfold encPair
  cases hk : pctEncode fragmentSlashByte p.1 <;> simp

/-- Parsing the canonical query string back yields the sorted pair list. -/
theorem parse_canonical (q : List Nat) (hq : ∀ b ∈ q, b < 256) :
    parseQueryPairs (canonicalQueryString q) =
      List.insertionSort pairLeR (parseQueryPairs q) := by
  have hbound : ∀ p ∈ List.insertionSort pairLeR (parseQueryPairs q),
      (∀ x ∈ p.1, x < 256) ∧ (∀ x ∈ p.2, x < 256) := by
    intro p hp
    exact parseQueryPairs_lt256 q hq p ((List.mem_insertionSort pairLeR).mp hp)
  cases hempty : List.insertionSort pairLeR (parseQueryPairs q) with
  | nil =>
    have h1 : canonicalQueryString q = [] := by
      unfold canonicalQueryString
      rw [hempty]
      rfl
    rw [h1]
    rfl
  | cons p0 rest =>
    have h1 : canonicalQueryString q = List.intercalate [38] ((p0 :: rest).map encPair) := by
      unfold canonicalQueryString
      rw [hempty]
    rw [h1]
    unfold parseQueryPairs
    rw [List.splitOn_intercalate ((p0 :: rest).map encPair) 38
      (fun l hl => by
        rcases List.mem_map.mp hl with ⟨p, _, rfl⟩
        exact not_mem_encPair_38 p)
      (by simp)]
    rw [List.filter_eq_self.mpr (fun seg hseg => by
      rcases List.mem_map.mp hseg with ⟨p, _, rfl⟩
      exact encPair_not_isEmpty p)]
    rw [List.map_map]
    have hb2 : ∀ p ∈ p0 :: rest, (∀ x ∈ p.1, x < 256) ∧ (∀ x ∈ p.2, x < 256) :=
      hempty ▸ hbound
    exact map_id_of_eq _ _ (fun p hp =>
      parsePair_encPair p (hb2 p hp).1 (hb2 p hp).2)

/-- C6: `canonical_query_string` is order-independent — two queries whose
decoded pair multisets agree (any permutation of the key/value pairs)
canonicalize identically — and both the canonical query string and the
canonical URI path are idempotent under re-canonicalization (on byte
strings). -/
theorem canonicalization_order_independent_idempotent :
    (∀ q q' : List Nat, List.Perm (parseQueryPairs q) (parseQueryPairs q') →
      canonicalQueryString q = canonicalQueryString q') ∧
    (∀ q : List Nat, (∀ b ∈ q, b < 256) →
      canonicalQueryString (canonicalQueryString q) = canonicalQueryString q) ∧
    (∀ p : List Nat, (∀ b ∈ p, b < 256) →
      canonicalUriString (canonicalUriString p) = canonicalUriString p) := by
  refine ⟨fun q q' h => ?_, fun q hq => ?_, fun p hp => ?_⟩
  · unfold canonicalQueryString
    rw [sort_perm_eq h]
  · conv_lhs => rw [canonicalQueryString]
    rw [parse_canonical q hq,
      sort_perm_eq (List.perm_insertionSort pairLeR (parseQueryPairs q))]
    rfl
  · unfold canonicalUriString
    simp only [show ∀ l : List Nat, uriEncode false l = pctEncode fragmentByte l from
      fun l => by simp [uriEncode]]
    rw [pctDecode_pctEncode fragmentByte (by decide) (pctDecode p)
      (pctDecode_lt256 p hp)]

/-- Witness for C6: permuted pairs `b=2&a=1` vs `a=1&b=2` canonicalize
identically, and re-canonicalizing is the identity on both a canonical
query and a canonical path. -/
theorem canonicalization_witness :
    List.Perm (parseQueryPairs (asBytes "b=2&a=1")) (parseQueryPairs (asBytes "a=1&b=2")) ∧
    canonicalQueryString (asBytes "b=2&a=1") = canonicalQueryString (asBytes "a=1&b=2") ∧
    (∀ b ∈ asBytes "a=1&b=2", b < 256) ∧
    canonicalQueryString (canonicalQueryString (asBytes "a=1&b=2")) =
      canonicalQueryString (asBytes "a=1&b=2") ∧
    (∀ b ∈ asBytes "/bucket/Filename (xx)%=", b < 256) ∧
    canonicalUriString (canonicalUriString (asBytes "/bucket/Filename (xx)%=")) =
      canonicalUriString (asBytes "/bucket/Filename (xx)%=") :=
  ⟨by decide,
    canonicalization_order_independent_idempotent.1 _ _ (by decide),
    by decide,
    canonicalization_order_independent_idempotent.2.1 _ (by decide),
    by decide,
    canonicalization_order_independent_idempotent.2.2 _ (by decide)⟩

end S3
